import Mathlib

/-!
# vault-sidekick: utilities and the Kubernetes login plugin

A shallow embedding of `utils.go` and `auth_kubernetes.go`.

* Go `int` and `time.Duration` are 64-bit two's-complement integers (the
  64-bit targets the sidecar is built for); arithmetic is carried out in `Int`
  and wrapped explicitly with `wrap64`.
* Calls that leave the process (filesystem, standard output, child processes,
  the Vault client, the random generator) are taken from a host record and
  every call is appended to a trace, so that "is not invoked" is a statement
  about the trace.
* A Go panic is an explicit outcome.
-/

namespace VaultSidekick

/-! ## Machine integers and `math/rand` -/

/-- Two's-complement wrap of an integer into the signed 64-bit range. -/
def wrap64 (x : Int) : Int := (x + 2 ^ 63) % 2 ^ 64 - 2 ^ 63

/-- The values a Go `int` can hold on a 64-bit target. -/
def isInt64 (x : Int) : Prop := -(2 ^ 63) ≤ x ∧ x < 2 ^ 63

instance (x : Int) : Decidable (isInt64 x) := by
  unfold isInt64; exact inferInstance

/-- The constant `time.Second`, in nanoseconds. -/
def time.Second : Int := 1000000000

/-- The function `rand.Intn(n)`: it panics (`none`) when `n <= 0` and otherwise
returns a number of the half-open interval `[0, n)`.  `draw` is the raw output
of the generator; every member of `[0, n)` is produced by some draw. -/
def rand.Intn (draw : Nat) (n : Int) : Option Int :=
  if n ≤ 0 then none else some ((draw : Int) % n)

/-- One run of `getDurationWithin`: the arguments `rand.Intn` was called with,
and the returned `time.Duration` in nanoseconds (`none` if the call panicked). -/
structure DurationRun where
  intnArgs : List Int
  result : Option Int
deriving DecidableEq, Repr

/-- The function `getDurationWithin` of `utils.go` (lines 142-149). -/
def getDurationWithin (draw : Nat) (min max : Int) : DurationRun :=
  let jitter := wrap64 (max - min)
  let jitter := if jitter ≤ 0 then 1 else jitter
  match rand.Intn draw jitter with
  | none => { intnArgs := [jitter], result := none }
  | some r =>
    let duration := wrap64 (r + min)
    { intnArgs := [jitter], result := some (wrap64 (duration * time.Second)) }

/-! ## Errors, outcomes, traces -/

/-- A Go `error` value: built by `fmt.Errorf` in this program, or handed back
by the operating system or a library (`op` names the call, `errno` the cause). -/
inductive GoError where
  | errorf (msg : String)
  | sys (op : String) (errno : Nat)
deriving DecidableEq, Repr

/-- The predicate `os.IsNotExist`: the error reports a missing file (`ENOENT`). -/
def os.IsNotExist : GoError → Bool
  | .sys _ 2 => true
  | _ => false

/-- How a Go call ends: it returns its result tuple, or it panics. -/
inductive Outcome (ρ : Type) where
  | returned (v : ρ)
  | panicked (why : String)
deriving DecidableEq, Repr

/-- A sequence of bytes (`[]byte`). -/
abbrev Bytes := List UInt8

/-- The encoders `processResource` dispatches to (defined in other files). -/
inductive Encoder where
  | writeYAMLFile | writeJSONFile | writeIniFile | writeCSVFile | writeEnvFile
  | writeCertificateFile | writeTxtFile | writeFlattenFiles
  | writeCertificateBundleFile | writeCredentialFile | writeTemplateFile
  | writeAwsCredentialFile
deriving DecidableEq, Repr

/-- A call that leaves the program, in the order the program makes them. -/
inductive Call where
  | stat (name : String)
  | readFile (name : String)
  | jsonUnmarshal (content : Bytes)
  | yamlUnmarshal (content : Bytes)
  | mkdirAll (dir : String) (perm : Nat)
  | writeFile (name : String) (content : Bytes) (mode : Nat)
  | stdout (content : Bytes)
  | glog (msg : String)
  | encoder (enc : Encoder) (filename : String) (mode : Nat) (templateFile : Option String)
  | cmdStart (name : String) (args : List String)
  | cmdKill
  | cmdWait
  | lookupEnv (name : String)
  | getenv (name : String)
  | vaultWrite (path : String) (role : String) (jwt : Bytes)
deriving DecidableEq, Repr

/-- The call is one of the encoders. -/
def Call.isEncoder : Call → Bool
  | .encoder _ _ _ _ => true
  | _ => false

/-- The call starts a child process. -/
def Call.isCmdStart : Call → Bool
  | .cmdStart _ _ => true
  | _ => false

/-- The call changes the filesystem. -/
def Call.isFsMutation : Call → Bool
  | .mkdirAll _ _ => true
  | .writeFile _ _ _ => true
  | _ => false

/-- The call runs a decoder. -/
def Call.isDecoder : Call → Bool
  | .jsonUnmarshal _ => true
  | .yamlUnmarshal _ => true
  | _ => false

/-- The process-wide `options` value (declared in another file): the fields
`utils.go` reads, and the `glog` verbosity. -/
structure Options where
  outputDir : String
  dryRun : Bool
  execTimeout : Int
  verbosity : Nat
deriving DecidableEq, Repr

/-! ## Configuration files -/

/-- The record `vaultAuthOptions` (declared in another file): the three fields
`utils.go` touches, and the remaining fields as `other`. -/
structure vaultAuthOptions (α : Type) where
  ClientToken : String
  Token : String
  Method : String
  other : α
deriving DecidableEq, Repr

/-- What reading a configuration file depends on.  `jsonUnmarshal` decodes into
`&opts`, a pointer to the pointer, so a JSON `null` leaves `opts` nil (`none`). -/
structure ConfigHost (α : Type) where
  stat : String → Option GoError
  readFile : String → Except GoError Bytes
  jsonUnmarshal : Bytes → Except GoError (Option (vaultAuthOptions α))
  yamlUnmarshal : Bytes → Except GoError (vaultAuthOptions α)

/-- The scan of `path.Ext`, from the last character backwards: `acc` holds the
characters already passed. -/
def path.extScan : List Char → List Char → List Char
  | [], _ => []
  | c :: cs, acc =>
    if c = '/' then [] else if c = '.' then '.' :: acc else path.extScan cs (c :: acc)

/-- The function `path.Ext`: the suffix from the last dot of the last
slash-separated element, or the empty string. -/
def path.Ext (p : String) : String := String.mk (path.extScan p.data.reverse [])

/-- The function `fileExists` of `utils.go` (lines 166-175). -/
def fileExists (H : ConfigHost α) (filename : String) : List Call × (Bool × Option GoError) :=
  match H.stat filename with
  | some err =>
    if os.IsNotExist err then ([.stat filename], (false, none))
    else ([.stat filename], (false, some err))
  | none => ([.stat filename], (true, none))

/-- The result tuple `(*vaultAuthOptions, error)`. -/
abbrev ConfigResult (α : Type) := Outcome (Option (vaultAuthOptions α) × Option GoError)

/-- The function `readJSONFile` of `utils.go` (lines 98-119). -/
def readJSONFile (H : ConfigHost α) (filename format : String) : List Call × ConfigResult α :=
  match H.readFile filename with
  | .error err => ([.readFile filename], .returned (none, some err))
  | .ok content =>
    let trace := [Call.readFile filename, Call.jsonUnmarshal content]
    match H.jsonUnmarshal content with
    | .error err =>
      if format = "default" then (trace, .returned (none, some err))
      else (trace, .returned (none, some err))
    | .ok opts =>
      if format = "kubernetes-vault" then
        match opts with
        | none => (trace, .panicked "nil pointer dereference")
        | some o =>
          if o.ClientToken ≠ "" then
            (trace, .returned (some { o with Method := "token", Token := o.ClientToken }, none))
          else (trace, .returned (some o, none))
      else (trace, .returned (opts, none))

/-- The function `readYAMLFile` of `utils.go` (lines 124-136). -/
def readYAMLFile (H : ConfigHost α) (filename : String) : List Call × ConfigResult α :=
  match H.readFile filename with
  | .error err => ([.readFile filename], .returned (none, some err))
  | .ok content =>
    match H.yamlUnmarshal content with
    | .error err => ([.readFile filename, .yamlUnmarshal content], .returned (none, some err))
    | .ok o => ([.readFile filename, .yamlUnmarshal content], .returned (some o, none))

/-- The function `readConfigFile` of `utils.go` (lines 76-93). -/
def readConfigFile (H : ConfigHost α) (filename fileFormat : String) :
    List Call × ConfigResult α :=
  let (t, (fileFound, err)) := fileExists H filename
  if !fileFound then
    (t, .returned (none, some (.errorf ("the file: " ++ filename ++ " does not exist"))))
  else if err ≠ none then (t, .returned (none, err))
  else
    let suffix := path.Ext filename
    if suffix = ".yaml" ∨ suffix = ".yml" then
      let (t2, r) := readYAMLFile H filename
      (t ++ t2, r)
    else
      let (t2, r) := readJSONFile H filename fileFormat
      (t ++ t2, r)

/-- The function `getEnv` of `utils.go` (lines 155-161); `os.Getenv` is the
looked-up value, or the empty string for an unset variable. -/
def getEnv (lookupEnv : String → Option String) (env value : String) : String :=
  let v := (lookupEnv env).getD ""
  if v ≠ "" then v else value

/-! ## Writing files -/

/-- A machine: the state of the world outside the program, and the calls made
so far. -/
structure Machine (σ : Type) where
  world : σ
  trace : List Call

/-- Append a call to the trace. -/
def Machine.call (m : Machine σ) (c : Call) : Machine σ :=
  { m with trace := m.trace ++ [c] }

/-- What writing a file depends on: `filepath.Dir`, and the three filesystem
calls with their effect on the world. -/
structure FileHost (σ : Type) where
  options : Options
  dir : String → String
  stat : σ → String → Option GoError
  mkdirAll : σ → String → Nat → σ × Option GoError
  writeFile : σ → String → Bytes → Nat → σ × Option GoError

/-- The constant `os.ModePerm` (0777). -/
def os.ModePerm : Nat := 511

/-- The function `ensureDir` of `utils.go` (lines 251-260). -/
def ensureDir (H : FileHost σ) (fileName : String) (m : Machine σ) :
    Machine σ × Option GoError :=
  let dirName := H.dir fileName
  let m := m.call (.stat dirName)
  match H.stat m.world dirName with
  | some _ =>
    let (w, merr) := H.mkdirAll m.world dirName os.ModePerm
    let m := { (m.call (.mkdirAll dirName os.ModePerm)) with world := w }
    match merr with
    | some e => (m, some e)
    | none => (m, none)
  | none => (m, none)

/-- The function `writeFile` of `utils.go` (lines 263-277).  `glog.V(3)` logs
only at verbosity 3 or more; `fmt.Printf("%s\n", ...)` emits the content and a
newline (byte 10). -/
def writeFile (H : FileHost σ) (filename : String) (content : Bytes) (mode : Nat)
    (m : Machine σ) : Machine σ × Option GoError :=
  if H.options.dryRun then
    let m := m.call (.glog ("dry-run: filename: " ++ filename ++ ", content:"))
    let m := m.call (.stdout (content ++ [10]))
    (m, none)
  else
    let m := if 3 ≤ H.options.verbosity then m.call (.glog ("saving the file: " ++ filename))
      else m
    match ensureDir H filename m with
    | (m, some err) => (m, some err)
    | (m, none) =>
      let (w, werr) := H.writeFile m.world filename content mode
      ({ (m.call (.writeFile filename content mode)) with world := w }, werr)

/-! ## Rendering a resource -/

/-- The record `VaultResource` (declared in another file): the fields
`processResource` reads; `filename` is the value of `rn.GetFilename()`. -/
structure VaultResource where
  filename : String
  format : String
  fileMode : Nat
  execPath : String
  templateFile : String
deriving DecidableEq, Repr

/-- When the callback of `time.AfterFunc(options.execTimeout, ...)` runs,
relative to the caller: not before `timer.Stop()` (`stopped`); to completion
while the caller is in `cmd.Wait` (`duringWait`); or after `cmd.Wait` has
returned and before `return err` reads `err` (`afterWait`). -/
inductive TimerFiring where
  | stopped
  | duringWait
  | afterWait
deriving DecidableEq, Repr

/-- What rendering depends on: `filepath.Join`, the encoders of the other
files, and the child process (`cmd.Start`, the schedule of the timer armed
with `options.execTimeout`, `cmd.Process.Kill`, `cmd.Wait`). -/
structure RenderHost (σ δ : Type) where
  options : Options
  join : String → String → String
  encode : Encoder → String → δ → Nat → Option String → σ → σ × Option GoError
  start : String → List String → σ → σ × Option GoError
  timer : σ → TimerFiring
  kill : σ → σ × Option GoError
  wait : σ → σ × Option GoError

/-- The function `filepath.IsAbs` on Unix: the path begins with a slash. -/
def filepath.IsAbs (p : String) : Bool := p.data.head? = some '/'

/-- The fields of a character list between occurrences of `sep`. -/
def splitChars (sep : Char) : List Char → List (List Char)
  | [] => [[]]
  | c :: cs =>
    if c = sep then [] :: splitChars sep cs
    else
      match splitChars sep cs with
      | [] => [[c]]
      | w :: ws => (c :: w) :: ws

/-- The function `strings.Split(s, sep)` for a one-character separator. -/
def strings.Split (s : String) (sep : Char) : List String :=
  (splitChars sep s.data).map String.mk

/-- The switch of `processResource` (lines 188-217): the encoder a format tag
selects and whether it is passed `rn.templateFile`; `none` is the default
branch. -/
def selectEncoder (rn : VaultResource) : Option (Encoder × Option String) :=
  if rn.format = "yaml" then some (.writeYAMLFile, none)
  else if rn.format = "yml" then some (.writeYAMLFile, none)
  else if rn.format = "json" then some (.writeJSONFile, none)
  else if rn.format = "ini" then some (.writeIniFile, none)
  else if rn.format = "csv" then some (.writeCSVFile, none)
  else if rn.format = "env" then some (.writeEnvFile, none)
  else if rn.format = "cert" then some (.writeCertificateFile, none)
  else if rn.format = "txt" then some (.writeTxtFile, none)
  else if rn.format = "flatten" then some (.writeFlattenFiles, none)
  else if rn.format = "bundle" then some (.writeCertificateBundleFile, none)
  else if rn.format = "credential" then some (.writeCredentialFile, none)
  else if rn.format = "template" then some (.writeTemplateFile, some rn.templateFile)
  else if rn.format = "aws" then some (.writeAwsCredentialFile, none)
  else none

/-- The command of lines 226-234: the program `parts[0]` and its arguments,
from `strings.Split(rn.execPath, " ")`; `none` is the index panic on an empty
`parts`. -/
def commandLine (execPath filename : String) : Option (String × List String) :=
  match strings.Split execPath ' ' with
  | [] => none
  | prog :: rest => if rest.length + 1 > 1 then some (prog, rest) else some (prog, [filename])

/-- The timer callback of lines 236-240: `cmd.Process.Kill()` dereferences
`cmd.Process`, which is nil when `cmd.Start` failed (`started` is its error);
otherwise the result of `Kill` is assigned to the named result `err`, and
logged when it is an error.  The outcome is the new value of `err`. -/
def timerCallback (H : RenderHost σ δ) (started : Option GoError) (m : Machine σ) :
    Machine σ × Outcome (Option GoError) :=
  match started with
  | some _ => (m, .panicked "nil pointer dereference")
  | none =>
    let (w, kerr) := H.kill m.world
    let m := { (m.call .cmdKill) with world := w }
    match kerr with
    | some e => (m.call (.glog "failed to kill the command"), .returned (some e))
    | none => (m, .returned none)

/-- The post-write command of `processResource` (lines 224-244).  The result
of `cmd.Start` is discarded and the timer is armed whatever it was.  The
callback and `err = cmd.Wait()` both assign the named result `err`; the host
schedules the callback, and the assignment made last is the value returned. -/
def runCommand (H : RenderHost σ δ) (execPath filename : String) (m : Machine σ) :
    Machine σ × Outcome (Option GoError) :=
  let m := if 10 ≤ H.options.verbosity then
      m.call (.glog ("executing the command: " ++ execPath ++ " for resource: " ++ filename))
    else m
  match commandLine execPath filename with
  | none => (m, .panicked "index out of range")
  | some (prog, args) =>
    let (w, started) := H.start prog args m.world
    let m := { (m.call (.cmdStart prog args)) with world := w }
    match H.timer m.world with
    | .stopped =>
      let (w, err) := H.wait m.world
      ({ (m.call .cmdWait) with world := w }, .returned err)
    | .duringWait =>
      match timerCallback H started m with
      | (m, .panicked why) => (m, .panicked why)
      | (m, .returned _) =>
        let (w, err) := H.wait m.world
        ({ (m.call .cmdWait) with world := w }, .returned err)
    | .afterWait =>
      let (w, _) := H.wait m.world
      let m := { (m.call .cmdWait) with world := w }
      match timerCallback H started m with
      | (m, .panicked why) => (m, .panicked why)
      | (m, .returned err) => (m, .returned err)

/-- The destination path `processResource` resolves (lines 183-186). -/
def resolveFilename (H : RenderHost σ δ) (rn : VaultResource) : String :=
  let filename := rn.filename
  if !filepath.IsAbs filename then H.join H.options.outputDir filename else filename

/-- The function `processResource` of `utils.go` (lines 181-247). -/
def processResource (H : RenderHost σ δ) (rn : VaultResource) (data : δ) (m : Machine σ) :
    Machine σ × Outcome (Option GoError) :=
  let filename := resolveFilename H rn
  match selectEncoder rn with
  | none => (m, .returned (some (.errorf ("unknown output format: " ++ rn.format))))
  | some (enc, tmpl) =>
    let (w, err) := H.encode enc filename data rn.fileMode tmpl m.world
    let m := { (m.call (.encoder enc filename rn.fileMode tmpl)) with world := w }
    match err with
    | some e => (m, .returned (some e))
    | none =>
      if rn.execPath ≠ "" then runCommand H rn.execPath filename m
      else (m, .returned none)

/-! ## Kubernetes login -/

/-- The authentication section of a login response (`api.SecretAuth`). -/
structure SecretAuth where
  ClientToken : String
deriving DecidableEq, Repr

/-- A login response (`api.Secret`); `Auth` is a pointer, nil when absent. -/
structure Secret where
  Auth : Option SecretAuth
deriving DecidableEq, Repr

/-- What the login depends on: the environment, the credential file, and
`client.Logical().Write`, which returns a response pointer and an error. -/
structure AuthHost where
  lookupEnv : String → Option String
  readFile : String → Except GoError Bytes
  write : String → String → Bytes → Option Secret × Option GoError

/-- The method `authKubernetesPlugin.Create` of `auth_kubernetes.go`
(lines 45-74); the result tuple is `(string, error)`. -/
def authKubernetesPlugin.Create (H : AuthHost) (_cfg : vaultAuthOptions α) :
    List Call × Outcome (String × Option GoError) :=
  let t := [Call.lookupEnv "VAULT_SIDEKICK_ROLE"]
  match H.lookupEnv "VAULT_SIDEKICK_ROLE" with
  | none => (t, .returned ("", some (.errorf "VAULT_SIDEKICK_ROLE not provided")))
  | some vaultRole =>
    let loginPath := getEnv H.lookupEnv "VAULT_K8S_LOGIN_PATH" "kubernetes/login"
    let tokenPath := getEnv H.lookupEnv "VAULT_K8S_TOKEN_PATH"
      "/var/run/secrets/kubernetes.io/serviceaccount/token"
    let t := t ++ [.getenv "VAULT_K8S_LOGIN_PATH", .getenv "VAULT_K8S_TOKEN_PATH",
      .readFile tokenPath]
    match H.readFile tokenPath with
    | .error err => (t, .returned ("", some err))
    | .ok token =>
      let t := t ++ [.vaultWrite loginPath vaultRole token]
      match H.write loginPath vaultRole token with
      | (_, some err) => (t, .returned ("", some err))
      | (none, none) => (t, .panicked "nil pointer dereference")
      | (some resp, none) =>
        match resp.Auth with
        | none => (t, .panicked "nil pointer dereference")
        | some auth => (t, .returned (auth.ClientToken, none))

/-! ## The words of the specification -/

/-- The thirteen output format tags the specification lists (section 6). -/
def recognisedFormats : List String :=
  ["yaml", "yml", "json", "ini", "csv", "env", "cert", "txt", "flatten", "bundle",
    "credential", "template", "aws"]

/-- The whitespace-separated words of a character list, as the specification
words the command split: runs of whitespace separate, and no word is empty.
`cur` holds the current word, reversed. -/
def specWordsAux : List Char → List Char → List (List Char)
  | [], cur => if cur = [] then [] else [cur.reverse]
  | c :: cs, cur =>
    if c.isWhitespace then
      if cur = [] then specWordsAux cs [] else cur.reverse :: specWordsAux cs []
    else specWordsAux cs (c :: cur)

/-- The command the specification describes (section 4.4): the first
whitespace-separated word is the program, the remaining words are the
arguments, and without arguments the rendered file is the sole argument. -/
def specCommand (c f : String) : Option (String × List String) :=
  match (specWordsAux c.data []).map String.mk with
  | [] => none
  | [prog] => some (prog, [f])
  | prog :: rest => some (prog, rest)

/-! ## Sample hosts -/

/-- Sample options: output below `/out`, no dry run, a 60 second timeout. -/
def sampleOptions : Options :=
  { outputDir := "/out", dryRun := false, execTimeout := 60000000000, verbosity := 0 }

/-- A render host whose world is the list of files written: every encoder
succeeds, and the command runs and exits cleanly. -/
def sampleRenderHost : RenderHost (List String) Unit where
  options := sampleOptions
  join := fun d f => d ++ "/" ++ f
  encode := fun _ filename _ _ _ w => (w ++ [filename], none)
  start := fun _ _ w => (w, none)
  timer := fun _ => .stopped
  kill := fun w => (w, none)
  wait := fun w => (w, none)

/-- A render host whose encoders fail with `ENOSPC`. -/
def fullDiskRenderHost : RenderHost (List String) Unit :=
  { sampleRenderHost with encode := fun _ _ _ _ _ w => (w, some (.sys "write" 28)) }

/-- A render host whose command exits with an error. -/
def failingHookRenderHost : RenderHost (List String) Unit :=
  { sampleRenderHost with wait := fun w => (w, some (.sys "wait" 1)) }

/-- A render host on which `cmd.Start` fails (the program is not found, so
`cmd.Process` stays nil and `cmd.Wait` reports "exec: not started") and the
timer is due at once (`options.execTimeout` is 0). -/
def failedStartRenderHost : RenderHost (List String) Unit :=
  { sampleRenderHost with
    options := { sampleOptions with execTimeout := 0 }
    start := fun _ _ w => (w, some (.sys "exec" 2))
    timer := fun _ => .duringWait
    wait := fun w => (w, some (.errorf "exec: not started")) }

/-- A render host whose command exits cleanly just as the timer fires: the
callback runs after `cmd.Wait` has returned nil, and `Kill` reports that the
process has already finished. -/
def lateTimerRenderHost : RenderHost (List String) Unit :=
  { sampleRenderHost with
    timer := fun _ => .afterWait
    kill := fun w => (w, some (.errorf "os: process already finished")) }

/-- A resource with the given format tag and post-write command. -/
def sampleResource (format execPath : String) : VaultResource :=
  { filename := "db.creds", format := format, fileMode := 420, execPath := execPath,
    templateFile := "" }

/-- A machine that has written nothing and made no call. -/
def freshMachine : Machine (List String) := { world := [], trace := [] }

/-- Sample decoded options: a legacy file that carries only a client token. -/
def legacyOptions : vaultAuthOptions Unit :=
  { ClientToken := "s.legacy", Token := "", Method := "", other := () }

/-- A configuration host whose file exists, reads, and decodes to
`legacyOptions`. -/
def legacyConfigHost : ConfigHost Unit where
  stat := fun _ => none
  readFile := fun _ => .ok [123, 125]
  jsonUnmarshal := fun _ => .ok (some legacyOptions)
  yamlUnmarshal := fun _ => .ok legacyOptions

/-- A configuration host on which `os.Stat` fails with `EACCES`: a parent
directory of the file cannot be searched. -/
def deniedConfigHost : ConfigHost Unit :=
  { legacyConfigHost with stat := fun _ => some (.sys "stat" 13) }

/-- A configuration host on which `os.Stat` fails with `ENOENT`. -/
def missingConfigHost : ConfigHost Unit :=
  { legacyConfigHost with stat := fun _ => some (.sys "stat" 2) }

/-- A file host whose world is the list of directories made and files
written: the parent directory is missing until it is made. -/
def sampleFileHost : FileHost (List (String × Bytes)) where
  options := sampleOptions
  dir := fun _ => "/out"
  stat := fun w d => if (d, []) ∈ w then none else some (.sys "stat" 2)
  mkdirAll := fun w d _ => (w ++ [(d, [])], none)
  writeFile := fun w f c _ => (w ++ [(f, c)], none)

/-- The sample file host with the dry-run flag set. -/
def dryRunFileHost : FileHost (List (String × Bytes)) :=
  { sampleFileHost with options := { sampleOptions with dryRun := true } }

/-- A file host on a read-only filesystem: `MkdirAll` fails with `EROFS`. -/
def readOnlyFileHost : FileHost (List (String × Bytes)) :=
  { sampleFileHost with mkdirAll := fun w _ _ => (w, some (.sys "mkdir" 30)) }

/-- A login host: only `VAULT_SIDEKICK_ROLE` is set, the credential file reads,
and the login returns the token `s.granted`. -/
def sampleAuthHost : AuthHost where
  lookupEnv := fun name => if name = "VAULT_SIDEKICK_ROLE" then some "app" else none
  readFile := fun _ => .ok [106, 119, 116]
  write := fun _ _ _ => (some { Auth := some { ClientToken := "s.granted" } }, none)

/-- A login host without `VAULT_SIDEKICK_ROLE`. -/
def noRoleAuthHost : AuthHost :=
  { sampleAuthHost with lookupEnv := fun _ => none }

/-- A login host whose credential file cannot be read. -/
def unreadableAuthHost : AuthHost :=
  { sampleAuthHost with readFile := fun _ => .error (.sys "open" 13) }

/-- A login host whose login request is rejected. -/
def rejectedAuthHost : AuthHost :=
  { sampleAuthHost with write := fun _ _ _ => (none, some (.sys "vault" 403)) }

/-- A login host whose login succeeds with a nil response (no content). -/
def nilResponseAuthHost : AuthHost :=
  { sampleAuthHost with write := fun _ _ _ => (none, none) }

/-- A login host whose response has no authentication section. -/
def noAuthSectionAuthHost : AuthHost :=
  { sampleAuthHost with write := fun _ _ _ => (some { Auth := none }, none) }

/-- A login host whose response carries an empty client token. -/
def emptyTokenAuthHost : AuthHost :=
  { sampleAuthHost with write := fun _ _ _ => (some { Auth := some { ClientToken := "" } }, none) }

/-! ## Theorems: `getDurationWithin` -/

theorem wrap64_of_isInt64 (x : Int) (h : isInt64 x) : wrap64 x = x := by
  unfold isInt64 at h
  unfold wrap64
  omega

theorem wrap64_seconds (d : Int) (hlo : -9223372036 ≤ d) (hhi : d ≤ 9223372036) :
    wrap64 (d * time.Second) = d * time.Second := by
  apply wrap64_of_isInt64
  unfold isInt64 time.Second
  constructor <;> omega

/-- C1, as stated, fails: with `min = 0`, `max = 10000000000` and the draw
`9999999999` the multiplication by `time.Second` wraps, and the returned
duration is negative, so it is no whole number `d` of seconds with
`min <= d < max`. -/
theorem getDurationWithin_wide_range_wraps :
    isInt64 0 ∧ isInt64 10000000000 ∧ (0 : Int) < 10000000000 ∧
    ¬ ∃ d : Int, 0 ≤ d ∧ d < 10000000000 ∧
      (getDurationWithin 9999999999 0 10000000000).result = some (d * time.Second) := by
  refine ⟨by decide, by decide, by decide, ?_⟩
  rintro ⟨d, h0, _, hd⟩
  have hr : (getDurationWithin 9999999999 0 10000000000).result
      = some (-8446744074709551616) := by decide
  rw [hr] at hd
  simp only [Option.some.injEq, time.Second] at hd
  omega

/-- C1 (amended): for `min < max` with `-9223372036 <= min` and
`max <= 9223372037`, `getDurationWithin` calls `rand.Intn(max - min)` once, and
for every draw returns `d` whole seconds, `d = min + r`, `r` the drawn value,
`0 <= r < max - min`, `min <= d < max`. -/
theorem getDurationWithin_within (draw : Nat) (min max : Int) (hlt : min < max)
    (hmin : -9223372036 ≤ min) (hmax : max ≤ 9223372037) :
    ∃ r d : Int, rand.Intn draw (max - min) = some r ∧ 0 ≤ r ∧ r < max - min ∧
      d = min + r ∧ min ≤ d ∧ d < max ∧
      getDurationWithin draw min max
        = { intnArgs := [max - min], result := some (d * time.Second) } := by
  have hpos : 0 < max - min := by omega
  have hj : wrap64 (max - min) = max - min :=
    wrap64_of_isInt64 _ ⟨by omega, by omega⟩
  have hr0 : 0 ≤ (draw : Int) % (max - min) := Int.emod_nonneg _ (by omega)
  have hr1 : (draw : Int) % (max - min) < max - min := Int.emod_lt_of_pos _ hpos
  have hI : rand.Intn draw (max - min) = some ((draw : Int) % (max - min)) := by
    unfold rand.Intn
    rw [if_neg (by omega)]
  refine ⟨(draw : Int) % (max - min), min + (draw : Int) % (max - min), hI, hr0, hr1, rfl,
    by omega, by omega, ?_⟩
  have hd : wrap64 ((draw : Int) % (max - min) + min) = min + (draw : Int) % (max - min) := by
    rw [wrap64_of_isInt64 _ ⟨by omega, by omega⟩]
    omega
  unfold getDurationWithin
  simp only [hj, if_neg (not_le.mpr hpos), hI, hd]
  rw [wrap64_seconds _ (by omega) (by omega)]

theorem getDurationWithin_within_witness :
    ∃ r d : Int, rand.Intn 7 (20 - 10) = some r ∧ 0 ≤ r ∧ r < 20 - 10 ∧
      d = 10 + r ∧ 10 ≤ d ∧ d < 20 ∧
      getDurationWithin 7 10 20
        = { intnArgs := [20 - 10], result := some (d * time.Second) } :=
  getDurationWithin_within 7 10 20 (by decide) (by decide) (by decide)

/-- C2, as stated, fails: with `min = 10000000000` and `max = 0` the spread is
forced to 1 and the draw is 0, but the multiplication by `time.Second` wraps:
the returned duration is not in `[min, min+1)` seconds. -/
theorem getDurationWithin_degenerate_wraps :
    isInt64 10000000000 ∧ isInt64 0 ∧ (0 : Int) ≤ 10000000000 ∧
    ¬ ∃ t : Int, (getDurationWithin 0 10000000000 0).result = some t ∧
      10000000000 * time.Second ≤ t ∧ t < (10000000000 + 1) * time.Second := by
  refine ⟨by decide, by decide, by decide, ?_⟩
  rintro ⟨t, ht, hlo, _⟩
  have hr : (getDurationWithin 0 10000000000 0).result
      = some (-8446744073709551616) := by decide
  rw [hr] at ht
  simp only [Option.some.injEq] at ht
  unfold time.Second at hlo
  omega

/-- C2 (amended): for `max <= min`, `rand.Intn` is called once, with a
positive argument, and does not panic; when `min - max <= 2^63` (the
subtraction does not wrap) the argument is exactly 1, so the draw is 0 and the
result is `min * time.Second` in wrapping 64-bit arithmetic; when moreover
`-9223372036 <= min <= 9223372036` the result is exactly `min` seconds, for
every draw. -/
theorem getDurationWithin_degenerate (draw : Nat) (min max : Int) (hle : max ≤ min) :
    (∃ n t : Int, 0 < n ∧ (getDurationWithin draw min max).intnArgs = [n] ∧
      (getDurationWithin draw min max).result = some t) ∧
    (min - max ≤ 2 ^ 63 →
      getDurationWithin draw min max
        = { intnArgs := [1], result := some (wrap64 (wrap64 min * time.Second)) }) ∧
    (min - max ≤ 2 ^ 63 → -9223372036 ≤ min → min ≤ 9223372036 →
      getDurationWithin draw min max
        = { intnArgs := [1], result := some (min * time.Second) }) := by
  have hI : rand.Intn draw 1 = some 0 := by
    unfold rand.Intn
    simp
  have tier2 : min - max ≤ 2 ^ 63 →
      getDurationWithin draw min max
        = { intnArgs := [1], result := some (wrap64 (wrap64 min * time.Second)) } := by
    intro hsub
    have hj : wrap64 (max - min) ≤ 0 := by
      unfold wrap64
      omega
    unfold getDurationWithin
    simp only [hj, if_true, hI]
    rw [zero_add]
  refine ⟨?_, tier2, ?_⟩
  · unfold getDurationWithin rand.Intn
    by_cases hj : wrap64 (max - min) ≤ 0
    · simp [hj]
    · simp [hj]
      omega
  · intro hsub hlo hhi
    rw [tier2 hsub, wrap64_of_isInt64 min ⟨by omega, by omega⟩, wrap64_seconds _ hlo hhi]

theorem getDurationWithin_degenerate_witness :
    (∃ n t : Int, 0 < n ∧ (getDurationWithin 3 20 10).intnArgs = [n] ∧
      (getDurationWithin 3 20 10).result = some t) ∧
    getDurationWithin 3 10000000000 0
      = { intnArgs := [1], result := some (wrap64 (wrap64 10000000000 * time.Second)) } ∧
    getDurationWithin 3 20 10 = { intnArgs := [1], result := some (20 * time.Second) } :=
  ⟨(getDurationWithin_degenerate 3 20 10 (by decide)).1,
    (getDurationWithin_degenerate 3 10000000000 0 (by decide)).2.1 (by decide),
    (getDurationWithin_degenerate 3 20 10 (by decide)).2.2 (by decide) (by decide) (by decide)⟩

/-- With `min = 1` and `max = -2^63` the subtraction `max - min` wraps to
`2^63 - 1`: the spread is not forced to 1, and the draw 5 gives 6 seconds. -/
theorem getDurationWithin_subtraction_wraps :
    getDurationWithin 5 1 (-9223372036854775808)
      = { intnArgs := [9223372036854775807], result := some (6 * time.Second) } := by
  decide

/-! ## Theorems: the post-write command -/

theorem splitChars_ne_nil (sep : Char) (cs : List Char) : splitChars sep cs ≠ [] := by
  cases cs with
  | nil => simp [splitChars]
  | cons c cs =>
    unfold splitChars
    split
    · simp
    · split <;> simp

theorem splitChars_of_not_mem (sep : Char) (cs : List Char) (h : sep ∉ cs) :
    splitChars sep cs = [cs] := by
  induction cs with
  | nil => rfl
  | cons c cs ih =>
    have hc : c ≠ sep := fun e => h (by simp [e])
    have hcs : sep ∉ cs := fun e => h (by simp [e])
    unfold splitChars
    rw [if_neg hc, ih hcs]

theorem splitChars_of_mem (sep : Char) (cs : List Char) (h : sep ∈ cs) :
    splitChars sep cs
      = cs.takeWhile (fun c => c != sep)
        :: splitChars sep (cs.dropWhile (fun c => c != sep)).tail := by
  induction cs with
  | nil => simp at h
  | cons c cs ih =>
    by_cases hc : c = sep
    · subst hc
      conv_lhs => unfold splitChars
      simp
    · have hcs : sep ∈ cs := by
        rcases List.mem_cons.mp h with e | e
        · exact absurd e.symm hc
        · exact e
      conv_lhs => unfold splitChars
      rw [if_neg hc, ih hcs]
      simp [hc]

theorem commandLine_eq (execPath filename : String) :
    commandLine execPath filename
      = if ' ' ∈ execPath.data then
          some (String.mk (execPath.data.takeWhile (fun c => c != ' ')),
            strings.Split (String.mk (execPath.data.dropWhile (fun c => c != ' ')).tail) ' ')
        else some (execPath, [filename]) := by
  unfold commandLine strings.Split
  by_cases h : ' ' ∈ execPath.data
  · rw [if_pos h, splitChars_of_mem _ _ h]
    have hne := splitChars_ne_nil ' ' (execPath.data.dropWhile (fun c => c != ' ')).tail
    cases hs : splitChars ' ' (execPath.data.dropWhile (fun c => c != ' ')).tail with
    | nil => exact absurd hs hne
    | cons w ws => simp
  · rw [if_neg h, splitChars_of_not_mem _ _ h]
    simp

theorem timerCallback_trace (H : RenderHost σ δ) (started : Option GoError) (m : Machine σ) :
    (timerCallback H started m).1.trace.filter Call.isCmdStart
      = m.trace.filter Call.isCmdStart ∧
    (timerCallback H started m).1.trace.filter Call.isEncoder
      = m.trace.filter Call.isEncoder := by
  unfold timerCallback
  cases started with
  | some e => simp
  | none =>
    cases hk : (H.kill m.world).2 <;>
      simp [hk, Machine.call, List.filter_append, Call.isCmdStart, Call.isEncoder]

theorem runCommand_trace (H : RenderHost σ δ) (execPath filename prog : String)
    (args : List String) (m : Machine σ)
    (hc : commandLine execPath filename = some (prog, args)) :
    (runCommand H execPath filename m).1.trace.filter Call.isCmdStart
      = m.trace.filter Call.isCmdStart ++ [.cmdStart prog args] ∧
    (runCommand H execPath filename m).1.trace.filter Call.isEncoder
      = m.trace.filter Call.isEncoder := by
  unfold runCommand
  simp only [hc]
  cases hst : (H.start prog args m.world).2 with
  | some e =>
    by_cases hv : 10 ≤ H.options.verbosity <;>
    cases ht : H.timer (H.start prog args m.world).1 <;>
    simp [hv, ht, hst, timerCallback, Machine.call, List.filter_append, Call.isCmdStart,
      Call.isEncoder]
  | none =>
    by_cases hv : 10 ≤ H.options.verbosity <;>
    cases ht : H.timer (H.start prog args m.world).1 <;>
    cases hk : (H.kill (H.start prog args m.world).1).2 <;>
    cases hk2 : (H.kill (H.wait (H.start prog args m.world).1).1).2 <;>
    simp [hv, ht, hst, hk, hk2, timerCallback, Machine.call, List.filter_append,
      Call.isCmdStart, Call.isEncoder]

theorem runCommand_result (H : RenderHost σ δ) (execPath filename prog : String)
    (args : List String) (m : Machine σ)
    (hc : commandLine execPath filename = some (prog, args)) :
    let started := H.start prog args m.world
    (H.timer started.1 = .stopped →
      (runCommand H execPath filename m).2 = .returned (H.wait started.1).2) ∧
    (H.timer started.1 = .duringWait → started.2 = none →
      (runCommand H execPath filename m).2
        = .returned (H.wait (H.kill started.1).1).2) ∧
    (H.timer started.1 = .afterWait → started.2 = none →
      (runCommand H execPath filename m).2
        = .returned (H.kill (H.wait started.1).1).2) ∧
    (H.timer started.1 ≠ .stopped → started.2 ≠ none →
      (runCommand H execPath filename m).2 = .panicked "nil pointer dereference") := by
  intro started
  refine ⟨?_, ?_, ?_, ?_⟩
  · intro ht
    have ht2 : H.timer (H.start prog args m.world).1 = .stopped := ht
    unfold runCommand
    simp only [hc]
    by_cases hv : 10 ≤ H.options.verbosity <;> simp [hv, ht2, started, Machine.call]
  · intro ht hst
    have ht2 : H.timer (H.start prog args m.world).1 = .duringWait := ht
    have hst2 : (H.start prog args m.world).2 = none := hst
    unfold runCommand
    simp only [hc]
    by_cases hv : 10 ≤ H.options.verbosity <;>
    cases hk : (H.kill (H.start prog args m.world).1).2 <;>
    simp [hv, ht2, hst2, hk, started, timerCallback, Machine.call]
  · intro ht hst
    have ht2 : H.timer (H.start prog args m.world).1 = .afterWait := ht
    have hst2 : (H.start prog args m.world).2 = none := hst
    unfold runCommand
    simp only [hc]
    by_cases hv : 10 ≤ H.options.verbosity <;>
    cases hk : (H.kill (H.wait (H.start prog args m.world).1).1).2 <;>
    simp [hv, ht2, hst2, hk, started, timerCallback, Machine.call]
  · intro ht hst
    unfold runCommand
    simp only [hc]
    cases hs : (H.start prog args m.world).2 with
    | none => exact absurd hs hst
    | some e =>
      cases htm : H.timer (H.start prog args m.world).1 with
      | stopped => exact absurd htm ht
      | duringWait =>
        by_cases hv : 10 ≤ H.options.verbosity <;>
          simp [hv, htm, hs, timerCallback, Machine.call]
      | afterWait =>
        by_cases hv : 10 ≤ H.options.verbosity <;>
          simp [hv, htm, hs, timerCallback, Machine.call]

/-! ## Theorems: `processResource` -/

theorem commandLine_isSome (execPath filename : String) :
    ∃ prog args, commandLine execPath filename = some (prog, args) := by
  rw [commandLine_eq]
  split <;> exact ⟨_, _, rfl⟩

theorem processResource_default (H : RenderHost σ δ) (rn : VaultResource) (data : δ)
    (m : Machine σ) (hsel : selectEncoder rn = none) :
    processResource H rn data m
      = (m, .returned (some (.errorf ("unknown output format: " ++ rn.format)))) := by
  unfold processResource
  simp only [hsel]

theorem processResource_write_failed (H : RenderHost σ δ) (rn : VaultResource) (data : δ)
    (m : Machine σ) (enc : Encoder) (tmpl : Option String) (e : GoError)
    (hsel : selectEncoder rn = some (enc, tmpl))
    (herr : (H.encode enc (resolveFilename H rn) data rn.fileMode tmpl m.world).2 = some e) :
    processResource H rn data m
      = ({ world := (H.encode enc (resolveFilename H rn) data rn.fileMode tmpl m.world).1,
           trace := m.trace ++ [.encoder enc (resolveFilename H rn) rn.fileMode tmpl] },
         .returned (some e)) := by
  unfold processResource
  simp only [hsel, herr, Machine.call]

theorem processResource_written (H : RenderHost σ δ) (rn : VaultResource) (data : δ)
    (m : Machine σ) (enc : Encoder) (tmpl : Option String)
    (hsel : selectEncoder rn = some (enc, tmpl))
    (herr : (H.encode enc (resolveFilename H rn) data rn.fileMode tmpl m.world).2 = none) :
    processResource H rn data m
      = if rn.execPath ≠ "" then
          runCommand H rn.execPath (resolveFilename H rn)
            { world := (H.encode enc (resolveFilename H rn) data rn.fileMode tmpl m.world).1,
              trace := m.trace ++ [.encoder enc (resolveFilename H rn) rn.fileMode tmpl] }
        else
          ({ world := (H.encode enc (resolveFilename H rn) data rn.fileMode tmpl m.world).1,
             trace := m.trace ++ [.encoder enc (resolveFilename H rn) rn.fileMode tmpl] },
           .returned none) := by
  unfold processResource
  simp only [hsel, herr, Machine.call]

theorem processResource_encoder_calls (H : RenderHost σ δ) (rn : VaultResource) (data : δ)
    (m : Machine σ) (enc : Encoder) (tmpl : Option String)
    (hsel : selectEncoder rn = some (enc, tmpl)) :
    (processResource H rn data m).1.trace.filter Call.isEncoder
      = m.trace.filter Call.isEncoder
        ++ [.encoder enc (resolveFilename H rn) rn.fileMode tmpl] := by
  cases herr : (H.encode enc (resolveFilename H rn) data rn.fileMode tmpl m.world).2 with
  | some e =>
    rw [processResource_write_failed H rn data m enc tmpl e hsel herr]
    simp [List.filter_append, Call.isEncoder]
  | none =>
    rw [processResource_written H rn data m enc tmpl hsel herr]
    by_cases hx : rn.execPath = ""
    · simp [hx, List.filter_append, Call.isEncoder]
    · rw [if_pos hx]
      obtain ⟨prog, args, hc⟩ := commandLine_isSome rn.execPath (resolveFilename H rn)
      rw [(runCommand_trace H _ _ prog args _ hc).2]
      simp [List.filter_append, Call.isEncoder]

theorem selectEncoder_eq_none (rn : VaultResource) (h : rn.format ∉ recognisedFormats) :
    selectEncoder rn = none := by
  simp only [recognisedFormats, List.mem_cons, List.mem_singleton, List.not_mem_nil, or_false,
    not_or] at h
  obtain ⟨h1, h2, h3, h4, h5, h6, h7, h8, h9, h10, h11, h12, h13⟩ := h
  unfold selectEncoder
  simp only [h1, h2, h3, h4, h5, h6, h7, h8, h9, h10, h11, h12, h13, if_false]

theorem selectEncoder_isSome (rn : VaultResource) (h : rn.format ∈ recognisedFormats) :
    ∃ enc tmpl, selectEncoder rn = some (enc, tmpl) := by
  simp only [recognisedFormats, List.mem_cons, List.mem_singleton, List.not_mem_nil,
    or_false] at h
  unfold selectEncoder
  rcases h with h | h | h | h | h | h | h | h | h | h | h | h | h <;> rw [h] <;>
    simp

/-- C3: for a format tag outside the thirteen recognised ones, `processResource`
returns the "unknown output format" error and leaves the machine as it was (no
encoder call, no command, no change of the world), whatever the payload and the
exec path; for each recognised tag exactly one encoder call is made, the one
the tag selects, and `yaml` and `yml` select the same encoder. -/
theorem processResource_dispatch (H : RenderHost σ δ) (rn : VaultResource) (data : δ)
    (m : Machine σ) :
    (rn.format ∉ recognisedFormats →
      processResource H rn data m
        = (m, .returned (some (.errorf ("unknown output format: " ++ rn.format))))) ∧
    (rn.format ∈ recognisedFormats →
      ∃ enc tmpl, selectEncoder rn = some (enc, tmpl) ∧
        (processResource H rn data m).1.trace.filter Call.isEncoder
          = m.trace.filter Call.isEncoder
            ++ [.encoder enc (resolveFilename H rn) rn.fileMode tmpl]) ∧
    (rn.format = "yaml" ∨ rn.format = "yml" →
      selectEncoder rn = some (.writeYAMLFile, none)) := by
  refine ⟨fun h => processResource_default H rn data m (selectEncoder_eq_none rn h), ?_, ?_⟩
  · intro h
    obtain ⟨enc, tmpl, hsel⟩ := selectEncoder_isSome rn h
    exact ⟨enc, tmpl, hsel, processResource_encoder_calls H rn data m enc tmpl hsel⟩
  · rintro (h | h) <;> unfold selectEncoder <;> rw [h] <;> simp

theorem processResource_dispatch_witness :
    processResource sampleRenderHost (sampleResource "bogus" "reload") () freshMachine
      = (freshMachine, .returned (some (.errorf ("unknown output format: "
          ++ (sampleResource "bogus" "reload").format)))) ∧
    (∃ enc tmpl, selectEncoder (sampleResource "json" "reload") = some (enc, tmpl) ∧
      (processResource sampleRenderHost (sampleResource "json" "reload") ()
          freshMachine).1.trace.filter Call.isEncoder
        = freshMachine.trace.filter Call.isEncoder
          ++ [.encoder enc (resolveFilename sampleRenderHost (sampleResource "json" "reload"))
            (sampleResource "json" "reload").fileMode tmpl]) ∧
    selectEncoder (sampleResource "yml" "") = some (.writeYAMLFile, none) :=
  ⟨(processResource_dispatch sampleRenderHost (sampleResource "bogus" "reload") ()
      freshMachine).1 (by decide),
    (processResource_dispatch sampleRenderHost (sampleResource "json" "reload") ()
      freshMachine).2.1 (by decide),
    (processResource_dispatch sampleRenderHost (sampleResource "yml" "") ()
      freshMachine).2.2 (Or.inr rfl)⟩

theorem splitChars_no_sep (sep : Char) (cs : List Char) :
    ∀ w ∈ splitChars sep cs, sep ∉ w := by
  induction cs with
  | nil => simp [splitChars]
  | cons c cs ih =>
    unfold splitChars
    by_cases hc : c = sep
    · rw [if_pos hc]
      intro w hw
      rcases List.mem_cons.mp hw with e | e
      · simp [e]
      · exact ih w e
    · rw [if_neg hc]
      cases hs : splitChars sep cs with
      | nil => exact absurd hs (splitChars_ne_nil sep cs)
      | cons v vs =>
        rw [hs] at ih
        intro w hw
        rcases List.mem_cons.mp hw with e | e
        · subst e
          intro hmem
          rcases List.mem_cons.mp hmem with e2 | e2
          · exact hc e2.symm
          · exact ih v (List.mem_cons_self _ _) e2
        · exact ih w (List.mem_cons_of_mem _ e)

theorem splitChars_intercalate (sep : Char) (cs : List Char) :
    List.intercalate [sep] (splitChars sep cs) = cs := by
  induction cs with
  | nil => simp [splitChars, List.intercalate]
  | cons c cs ih =>
    unfold splitChars
    cases hs : splitChars sep cs with
    | nil => exact absurd hs (splitChars_ne_nil sep cs)
    | cons v vs =>
      rw [hs] at ih
      by_cases hc : c = sep
      · rw [if_pos hc]
        simp only [List.intercalate, List.intersperse] at ih ⊢
        rw [List.flatten_cons, List.flatten_cons, ih, hc]
        rfl
      · rw [if_neg hc]
        cases vs with
        | nil =>
          simp only [List.intercalate, List.intersperse] at ih ⊢
          rw [List.flatten_cons] at ih ⊢
          rw [← ih]
          rfl
        | cons u us =>
          simp only [List.intercalate, List.intersperse] at ih ⊢
          rw [List.flatten_cons] at ih ⊢
          rw [← ih]
          rfl

/-- C6, as stated, fails: for the command `"reload "` (one word followed by a
space) the code starts `reload` with the single empty argument, where the claim
gives the rendered file `/out/db.creds` as the sole argument. -/
theorem processResource_trailing_space_command :
    (processResource sampleRenderHost (sampleResource "json" "reload ") ()
        freshMachine).1.trace.filter Call.isCmdStart = [.cmdStart "reload" [""]] ∧
    resolveFilename sampleRenderHost (sampleResource "json" "reload ") = "/out/db.creds" ∧
    specCommand "reload " "/out/db.creds" = some ("reload", ["/out/db.creds"]) := by
  decide

/-- C6 (amended): for every non-empty command string `c` and resolved path `f`,
after a successful write `processResource` starts exactly one command, split at
every single space character (U+0020) of `c` and at nothing else: without a
space in `c` the program is `c` and the argument list is `[f]`; with a space the
program is the text before the first space and the arguments are the fields
between the later spaces, empty fields kept, so that program and arguments
joined by single spaces give back `c` and no field contains a space. -/
theorem processResource_command (H : RenderHost σ δ) (rn : VaultResource) (data : δ)
    (m : Machine σ) (enc : Encoder) (tmpl : Option String)
    (hsel : selectEncoder rn = some (enc, tmpl))
    (hok : (H.encode enc (resolveFilename H rn) data rn.fileMode tmpl m.world).2 = none)
    (hc : rn.execPath ≠ "") :
    ∃ prog args,
      (processResource H rn data m).1.trace.filter Call.isCmdStart
        = m.trace.filter Call.isCmdStart ++ [.cmdStart prog args] ∧
      (' ' ∉ rn.execPath.data → prog = rn.execPath ∧ args = [resolveFilename H rn]) ∧
      (' ' ∈ rn.execPath.data →
        prog = String.mk (rn.execPath.data.takeWhile (fun c => c != ' ')) ∧
        args ≠ [] ∧
        List.intercalate [' '] ((prog :: args).map String.data) = rn.execPath.data ∧
        ∀ w ∈ prog :: args, ' ' ∉ w.data) := by
  have hcl := commandLine_eq rn.execPath (resolveFilename H rn)
  rw [processResource_written H rn data m enc tmpl hsel hok, if_pos hc]
  by_cases hsp : ' ' ∈ rn.execPath.data
  · rw [if_pos hsp] at hcl
    refine ⟨String.mk (rn.execPath.data.takeWhile (fun c => c != ' ')),
      strings.Split (String.mk (rn.execPath.data.dropWhile (fun c => c != ' ')).tail) ' ',
      ?_, fun h => absurd hsp h, fun _ => ⟨rfl, ?_, ?_, ?_⟩⟩
    · rw [(runCommand_trace H _ _ _ _ _ hcl).1]
      simp [List.filter_append, Call.isCmdStart]
    · unfold strings.Split
      simpa using splitChars_ne_nil _ _
    · have h1 := splitChars_intercalate ' ' rn.execPath.data
      rw [splitChars_of_mem _ _ hsp] at h1
      unfold strings.Split
      simpa [Function.comp_def] using h1
    · have h2 := splitChars_no_sep ' ' rn.execPath.data
      rw [splitChars_of_mem _ _ hsp] at h2
      unfold strings.Split
      intro w hw
      rcases List.mem_cons.mp hw with e | e
      · subst e
        exact h2 _ (List.mem_cons_self _ _)
      · obtain ⟨v, hv, rfl⟩ := List.mem_map.mp e
        exact h2 v (List.mem_cons_of_mem _ hv)
  · rw [if_neg hsp] at hcl
    refine ⟨rn.execPath, [resolveFilename H rn], ?_, fun _ => ⟨rfl, rfl⟩,
      fun h => absurd h hsp⟩
    rw [(runCommand_trace H _ _ _ _ _ hcl).1]
    simp [List.filter_append, Call.isCmdStart]

theorem processResource_command_witness :
    ∃ prog args,
      (processResource sampleRenderHost (sampleResource "json" "reload -s now") ()
          freshMachine).1.trace.filter Call.isCmdStart
        = freshMachine.trace.filter Call.isCmdStart ++ [.cmdStart prog args] ∧
      (' ' ∉ (sampleResource "json" "reload -s now").execPath.data →
        prog = (sampleResource "json" "reload -s now").execPath ∧
        args = [resolveFilename sampleRenderHost (sampleResource "json" "reload -s now")]) ∧
      (' ' ∈ (sampleResource "json" "reload -s now").execPath.data →
        prog = String.mk ((sampleResource "json" "reload -s now").execPath.data.takeWhile
          (fun c => c != ' ')) ∧
        args ≠ [] ∧
        List.intercalate [' '] ((prog :: args).map String.data)
          = (sampleResource "json" "reload -s now").execPath.data ∧
        ∀ w ∈ prog :: args, ' ' ∉ w.data) :=
  processResource_command sampleRenderHost (sampleResource "json" "reload -s now") ()
    freshMachine .writeJSONFile none (by decide) (by decide) (by decide)

/-- The flow of errors in `processResource` for a recognised format: an
encoder error `e` is returned as it is and no command is started; after a
successful write with an empty exec path nil is returned and no command is
started; after a successful write with a non-empty exec path the command is
started exactly once, and the result of `cmd.Wait` is returned when the timer
callback does not run, or runs during `cmd.Wait` on a started child. -/
theorem processResource_flow (H : RenderHost σ δ) (rn : VaultResource) (data : δ)
    (m : Machine σ) (enc : Encoder) (tmpl : Option String)
    (hsel : selectEncoder rn = some (enc, tmpl)) :
    let f := resolveFilename H rn
    let written := H.encode enc f data rn.fileMode tmpl m.world
    (∀ e, written.2 = some e →
      (processResource H rn data m).2 = .returned (some e) ∧
      (processResource H rn data m).1.trace.filter Call.isCmdStart
        = m.trace.filter Call.isCmdStart) ∧
    (written.2 = none → rn.execPath = "" →
      (processResource H rn data m).2 = .returned none ∧
      (processResource H rn data m).1.trace.filter Call.isCmdStart
        = m.trace.filter Call.isCmdStart) ∧
    (written.2 = none → rn.execPath ≠ "" →
      ∃ prog args, commandLine rn.execPath f = some (prog, args) ∧
        (processResource H rn data m).1.trace.filter Call.isCmdStart
          = m.trace.filter Call.isCmdStart ++ [.cmdStart prog args] ∧
        (H.timer (H.start prog args written.1).1 = .stopped →
          (processResource H rn data m).2
            = .returned (H.wait (H.start prog args written.1).1).2) ∧
        (H.timer (H.start prog args written.1).1 = .duringWait →
          (H.start prog args written.1).2 = none →
          (processResource H rn data m).2
            = .returned (H.wait (H.kill (H.start prog args written.1).1).1).2)) := by
  intro f written
  refine ⟨?_, ?_, ?_⟩
  · intro e he
    rw [processResource_write_failed H rn data m enc tmpl e hsel he]
    simp [List.filter_append, Call.isCmdStart]
  · intro hok hx
    rw [processResource_written H rn data m enc tmpl hsel hok]
    simp [hx, List.filter_append, Call.isCmdStart]
  · intro hok hx
    obtain ⟨prog, args, hc⟩ := commandLine_isSome rn.execPath f
    refine ⟨prog, args, hc, ?_, ?_, ?_⟩
    · rw [processResource_written H rn data m enc tmpl hsel hok, if_pos hx,
        (runCommand_trace H _ _ prog args _ hc).1]
      simp [List.filter_append, Call.isCmdStart]
    · intro ht
      rw [processResource_written H rn data m enc tmpl hsel hok, if_pos hx]
      exact (runCommand_result H _ _ prog args _ hc).1 ht
    · intro ht hst
      rw [processResource_written H rn data m enc tmpl hsel hok, if_pos hx]
      exact (runCommand_result H _ _ prog args _ hc).2.1 ht hst

theorem processResource_flow_witness :
    ((processResource fullDiskRenderHost (sampleResource "json" "reload") () freshMachine).2
        = .returned (some (.sys "write" 28)) ∧
      (processResource fullDiskRenderHost (sampleResource "json" "reload") ()
          freshMachine).1.trace.filter Call.isCmdStart
        = freshMachine.trace.filter Call.isCmdStart) ∧
    ((processResource sampleRenderHost (sampleResource "json" "") () freshMachine).2
        = .returned none ∧
      (processResource sampleRenderHost (sampleResource "json" "") ()
          freshMachine).1.trace.filter Call.isCmdStart
        = freshMachine.trace.filter Call.isCmdStart) ∧
    (processResource failingHookRenderHost (sampleResource "json" "reload") () freshMachine).2
      = .returned (some (.sys "wait" 1)) :=
  ⟨(processResource_flow fullDiskRenderHost (sampleResource "json" "reload") ()
      freshMachine .writeJSONFile none (by decide)).1 (.sys "write" 28) (by decide),
    (processResource_flow sampleRenderHost (sampleResource "json" "") ()
      freshMachine .writeJSONFile none (by decide)).2.1 (by decide) (by decide),
    by
      obtain ⟨prog, args, hc, _, h, _⟩ :=
        (processResource_flow failingHookRenderHost (sampleResource "json" "reload") ()
          freshMachine .writeJSONFile none (by decide)).2.2 (by decide) (by decide)
      have hp : commandLine (sampleResource "json" "reload").execPath
          (resolveFilename failingHookRenderHost (sampleResource "json" "reload"))
          = some ("reload", ["/out/db.creds"]) := by decide
      rw [hp] at hc
      cases hc
      exact h (by decide)⟩

/-- C7 (the code at the failing inputs): the write succeeds and the exec path
is `reload`.  When `cmd.Start` fails and the timer is due, the callback
dereferences the nil `cmd.Process` and `processResource` panics, where
`cmd.Wait` reports "exec: not started".  When the callback runs after
`cmd.Wait` has returned nil, its assignment to the named result `err` is the
last one, and the error of `Kill` is returned in place of the result of
`cmd.Wait`. -/
theorem processResource_timer_callback :
    (processResource failedStartRenderHost (sampleResource "json" "reload") ()
        freshMachine).2 = .panicked "nil pointer dereference" ∧
    (failedStartRenderHost.wait ["/out/db.creds"]).2 = some (.errorf "exec: not started") ∧
    (processResource failedStartRenderHost (sampleResource "json" "reload") ()
        freshMachine).1.trace
      = [.encoder .writeJSONFile "/out/db.creds" 420 none, .cmdStart "reload" ["/out/db.creds"]] ∧
    (processResource lateTimerRenderHost (sampleResource "json" "reload") ()
        freshMachine).2 = .returned (some (.errorf "os: process already finished")) ∧
    (lateTimerRenderHost.wait ["/out/db.creds"]).2 = none := by
  decide

/-! ## Theorems: configuration files -/

/-- C4: for every decoded options record `o` and format hint `h`,
`readJSONFile` returns a record with `Method = "token"` and
`Token = o.ClientToken` when `h = "kubernetes-vault"` and `o.ClientToken` is
non-empty, and returns `o` itself in every other case; `ClientToken` and the
remaining fields are as decoded in both cases. -/
theorem readJSONFile_legacy_token (H : ConfigHost α) (filename h : String) (content : Bytes)
    (o : vaultAuthOptions α) (hread : H.readFile filename = .ok content)
    (hdec : H.jsonUnmarshal content = .ok (some o)) :
    ∃ r, (readJSONFile H filename h).2 = .returned (some r, none) ∧
      r.ClientToken = o.ClientToken ∧ r.other = o.other ∧
      (h = "kubernetes-vault" ∧ o.ClientToken ≠ "" →
        r.Method = "token" ∧ r.Token = o.ClientToken) ∧
      (¬ (h = "kubernetes-vault" ∧ o.ClientToken ≠ "") → r = o) := by
  unfold readJSONFile
  simp only [hread, hdec]
  by_cases hh : h = "kubernetes-vault"
  · by_cases ht : o.ClientToken = ""
    · refine ⟨o, by simp [hh, ht], rfl, rfl, fun hc => absurd ht hc.2, fun _ => rfl⟩
    · exact ⟨{ o with Method := "token", Token := o.ClientToken }, by simp [hh, ht], rfl, rfl,
        fun _ => ⟨rfl, rfl⟩, fun hc => absurd ⟨hh, ht⟩ hc⟩
  · exact ⟨o, by simp [hh], rfl, rfl, fun hc => absurd hc.1 hh, fun _ => rfl⟩

theorem readJSONFile_legacy_token_witness :
    ∃ r, (readJSONFile legacyConfigHost "auth.json" "kubernetes-vault").2
        = .returned (some r, none) ∧
      r.ClientToken = legacyOptions.ClientToken ∧ r.other = legacyOptions.other ∧
      ("kubernetes-vault" = "kubernetes-vault" ∧ legacyOptions.ClientToken ≠ "" →
        r.Method = "token" ∧ r.Token = legacyOptions.ClientToken) ∧
      (¬ ("kubernetes-vault" = "kubernetes-vault" ∧ legacyOptions.ClientToken ≠ "") →
        r = legacyOptions) :=
  readJSONFile_legacy_token legacyConfigHost "auth.json" "kubernetes-vault" [123, 125]
    legacyOptions rfl rfl

theorem readConfigFile_of_stat_error (H : ConfigHost α) (filename fileFormat : String)
    (e : GoError) (hstat : H.stat filename = some e) :
    readConfigFile H filename fileFormat
      = ([.stat filename],
         .returned (none, some (.errorf ("the file: " ++ filename ++ " does not exist")))) := by
  unfold readConfigFile fileExists
  simp only [hstat]
  by_cases hne : os.IsNotExist e <;> simp [hne]

/-- C5 (the code at the failing input): `os.Stat` fails with `EACCES`, so
`fileExists` returns `(false, err)`; `readConfigFile` tests `!exists` first and
returns the "does not exist" error, not the stat error; no decoder runs. -/
theorem readConfigFile_stat_error_reported_missing :
    fileExists deniedConfigHost "/etc/vault/auth.json"
      = ([.stat "/etc/vault/auth.json"], (false, some (.sys "stat" 13))) ∧
    readConfigFile deniedConfigHost "/etc/vault/auth.json" "default"
      = ([.stat "/etc/vault/auth.json"],
         .returned (none, some (.errorf "the file: /etc/vault/auth.json does not exist"))) ∧
    (readConfigFile deniedConfigHost "/etc/vault/auth.json" "default").2
      ≠ .returned (none, some (.sys "stat" 13)) := by
  refine ⟨by decide, ?_, ?_⟩
  · rw [readConfigFile_of_stat_error deniedConfigHost _ _ (.sys "stat" 13) rfl]
    decide
  · rw [readConfigFile_of_stat_error deniedConfigHost _ _ (.sys "stat" 13) rfl]
    decide

/-- A missing file is reported as missing, and no decoder runs. -/
theorem readConfigFile_missing :
    readConfigFile missingConfigHost "/etc/vault/auth.json" "default"
      = ([.stat "/etc/vault/auth.json"],
         .returned (none, some (.errorf "the file: /etc/vault/auth.json does not exist"))) := by
  rw [readConfigFile_of_stat_error missingConfigHost _ _ (.sys "stat" 2) rfl]
  decide

/-! ## Theorems: `writeFile` -/

theorem ensureDir_eq (H : FileHost σ) (fileName : String) (m : Machine σ) :
    ensureDir H fileName m
      = match H.stat m.world (H.dir fileName) with
        | none => ({ world := m.world, trace := m.trace ++ [.stat (H.dir fileName)] }, none)
        | some _ =>
          ({ world := (H.mkdirAll m.world (H.dir fileName) os.ModePerm).1,
             trace := m.trace ++ [.stat (H.dir fileName),
               .mkdirAll (H.dir fileName) os.ModePerm] },
           (H.mkdirAll m.world (H.dir fileName) os.ModePerm).2) := by
  unfold ensureDir
  cases hs : H.stat m.world (H.dir fileName) with
  | none => simp [Machine.call, hs]
  | some se =>
    cases hm : (H.mkdirAll m.world (H.dir fileName) os.ModePerm).2 <;>
      simp [Machine.call, hs, hm]

/-- C8: with the dry-run flag set, `writeFile` returns nil, emits the content
followed by a newline to standard output, and leaves the world as it was (no
`Stat`, `MkdirAll` or `WriteFile` call); without the flag it first ensures the
parent directory (`MkdirAll` only when `Stat` of the directory fails), returns a
directory-creation error unmodified without attempting the write, and
otherwise writes the content with the given mode and returns the result of the
write unmodified. -/
theorem writeFile_effects (H : FileHost σ) (filename : String) (content : Bytes) (mode : Nat)
    (m : Machine σ) :
    (H.options.dryRun = true →
      writeFile H filename content mode m
        = ({ world := m.world,
             trace := m.trace ++ [.glog ("dry-run: filename: " ++ filename ++ ", content:"),
               .stdout (content ++ [10])] }, none)) ∧
    (H.options.dryRun = false →
      let logged := if 3 ≤ H.options.verbosity then
          m.trace ++ [.glog ("saving the file: " ++ filename)]
        else m.trace
      let d := H.dir filename
      let made := H.mkdirAll m.world d os.ModePerm
      (H.stat m.world d = none →
        writeFile H filename content mode m
          = ({ world := (H.writeFile m.world filename content mode).1,
               trace := logged ++ [.stat d, .writeFile filename content mode] },
             (H.writeFile m.world filename content mode).2)) ∧
      (H.stat m.world d ≠ none → ∀ e, made.2 = some e →
        writeFile H filename content mode m
          = ({ world := made.1, trace := logged ++ [.stat d, .mkdirAll d os.ModePerm] },
             some e)) ∧
      (H.stat m.world d ≠ none → made.2 = none →
        writeFile H filename content mode m
          = ({ world := (H.writeFile made.1 filename content mode).1,
               trace := logged ++ [.stat d, .mkdirAll d os.ModePerm,
                 .writeFile filename content mode] },
             (H.writeFile made.1 filename content mode).2))) := by
  refine ⟨?_, ?_⟩
  · intro hdry
    unfold writeFile
    simp [hdry, Machine.call]
  · intro hdry logged d made
    have hw : writeFile H filename content mode m
        = match ensureDir H filename { world := m.world, trace := logged } with
          | (m1, some err) => (m1, some err)
          | (m1, none) =>
            ({ world := (H.writeFile m1.world filename content mode).1,
               trace := m1.trace ++ [.writeFile filename content mode] },
             (H.writeFile m1.world filename content mode).2) := by
      unfold writeFile
      by_cases hv : 3 ≤ H.options.verbosity <;> simp [hdry, hv, Machine.call, logged]
    refine ⟨?_, ?_, ?_⟩
    · intro hstat
      rw [hw, ensureDir_eq]
      simp only [hstat]
      simp
    · intro hstat e hmade
      have hmade2 : (H.mkdirAll m.world (H.dir filename) os.ModePerm).2 = some e := hmade
      cases hs : H.stat m.world d with
      | none => exact absurd hs hstat
      | some se =>
        rw [hw, ensureDir_eq]
        simp only [hs, hmade2]
    · intro hstat hmade
      have hmade2 : (H.mkdirAll m.world (H.dir filename) os.ModePerm).2 = none := hmade
      cases hs : H.stat m.world d with
      | none => exact absurd hs hstat
      | some se =>
        rw [hw, ensureDir_eq]
        simp only [hs, hmade2]
        simp [made, d]

theorem writeFile_effects_witness :
    writeFile dryRunFileHost "/out/db.creds" [104, 105] 420 { world := [], trace := [] }
      = ({ world := [],
           trace := [] ++ [.glog ("dry-run: filename: " ++ "/out/db.creds" ++ ", content:"),
             .stdout ([104, 105] ++ [10])] }, none) ∧
    writeFile readOnlyFileHost "/out/db.creds" [104, 105] 420 { world := [], trace := [] }
      = ({ world := [], trace := [.stat "/out", .mkdirAll "/out" os.ModePerm] },
         some (.sys "mkdir" 30)) ∧
    writeFile sampleFileHost "/out/db.creds" [104, 105] 420 { world := [], trace := [] }
      = ({ world := [("/out", []), ("/out/db.creds", [104, 105])],
           trace := [.stat "/out", .mkdirAll "/out" os.ModePerm,
             .writeFile "/out/db.creds" [104, 105] 420] }, none) :=
  ⟨(writeFile_effects dryRunFileHost "/out/db.creds" [104, 105] 420
      { world := [], trace := [] }).1 rfl,
    ((writeFile_effects readOnlyFileHost "/out/db.creds" [104, 105] 420
      { world := [], trace := [] }).2 rfl).2.1 (by decide) (.sys "mkdir" 30) rfl,
    ((writeFile_effects sampleFileHost "/out/db.creds" [104, 105] 420
      { world := [], trace := [] }).2 rfl).2.2 (by decide) rfl⟩

/-! ## Theorems: the Kubernetes login -/

/-- C9: (1) without `VAULT_SIDEKICK_ROLE`, `Create` returns an empty token and
an error after the environment lookup alone: no file is read and no login is
submitted; (2) with the role, when the credential file (`VAULT_K8S_TOKEN_PATH`
or its default) cannot be read, it returns an empty token and the read error
itself, and no login is submitted; (3) when the login submission fails, it
returns an empty token and the submission's error itself. -/
theorem Create_failures (H : AuthHost) (cfg : vaultAuthOptions α) :
    let loginPath := getEnv H.lookupEnv "VAULT_K8S_LOGIN_PATH" "kubernetes/login"
    let tokenPath := getEnv H.lookupEnv "VAULT_K8S_TOKEN_PATH"
      "/var/run/secrets/kubernetes.io/serviceaccount/token"
    (H.lookupEnv "VAULT_SIDEKICK_ROLE" = none →
      authKubernetesPlugin.Create H cfg
        = ([.lookupEnv "VAULT_SIDEKICK_ROLE"],
           .returned ("", some (.errorf "VAULT_SIDEKICK_ROLE not provided")))) ∧
    (∀ role e, H.lookupEnv "VAULT_SIDEKICK_ROLE" = some role →
      H.readFile tokenPath = .error e →
      authKubernetesPlugin.Create H cfg
        = ([.lookupEnv "VAULT_SIDEKICK_ROLE", .getenv "VAULT_K8S_LOGIN_PATH",
            .getenv "VAULT_K8S_TOKEN_PATH", .readFile tokenPath],
           .returned ("", some e))) ∧
    (∀ role token resp e, H.lookupEnv "VAULT_SIDEKICK_ROLE" = some role →
      H.readFile tokenPath = .ok token →
      H.write loginPath role token = (resp, some e) →
      authKubernetesPlugin.Create H cfg
        = ([.lookupEnv "VAULT_SIDEKICK_ROLE", .getenv "VAULT_K8S_LOGIN_PATH",
            .getenv "VAULT_K8S_TOKEN_PATH", .readFile tokenPath,
            .vaultWrite loginPath role token],
           .returned ("", some e))) := by
  intro loginPath tokenPath
  refine ⟨?_, ?_, ?_⟩
  · intro hrole
    unfold authKubernetesPlugin.Create
    simp only [hrole]
  · intro role e hrole hread
    unfold authKubernetesPlugin.Create
    simp only [hrole]
    rw [show H.readFile (getEnv H.lookupEnv "VAULT_K8S_TOKEN_PATH"
      "/var/run/secrets/kubernetes.io/serviceaccount/token") = .error e from hread]
    rfl
  · intro role token resp e hrole hread hwrite
    unfold authKubernetesPlugin.Create
    simp only [hrole]
    rw [show H.readFile (getEnv H.lookupEnv "VAULT_K8S_TOKEN_PATH"
      "/var/run/secrets/kubernetes.io/serviceaccount/token") = .ok token from hread]
    simp only
    rw [show H.write (getEnv H.lookupEnv "VAULT_K8S_LOGIN_PATH" "kubernetes/login") role token
      = (resp, some e) from hwrite]
    cases resp <;> rfl

theorem Create_failures_witness :
    authKubernetesPlugin.Create noRoleAuthHost legacyOptions
      = ([.lookupEnv "VAULT_SIDEKICK_ROLE"],
         .returned ("", some (.errorf "VAULT_SIDEKICK_ROLE not provided"))) ∧
    authKubernetesPlugin.Create unreadableAuthHost legacyOptions
      = ([.lookupEnv "VAULT_SIDEKICK_ROLE", .getenv "VAULT_K8S_LOGIN_PATH",
          .getenv "VAULT_K8S_TOKEN_PATH",
          .readFile "/var/run/secrets/kubernetes.io/serviceaccount/token"],
         .returned ("", some (.sys "open" 13))) ∧
    authKubernetesPlugin.Create rejectedAuthHost legacyOptions
      = ([.lookupEnv "VAULT_SIDEKICK_ROLE", .getenv "VAULT_K8S_LOGIN_PATH",
          .getenv "VAULT_K8S_TOKEN_PATH",
          .readFile "/var/run/secrets/kubernetes.io/serviceaccount/token",
          .vaultWrite "kubernetes/login" "app" [106, 119, 116]],
         .returned ("", some (.sys "vault" 403))) :=
  ⟨(Create_failures noRoleAuthHost legacyOptions).1 rfl,
    (Create_failures unreadableAuthHost legacyOptions).2.1 "app" (.sys "open" 13) rfl rfl,
    (Create_failures rejectedAuthHost legacyOptions).2.2 "app" [106, 119, 116] none
      (.sys "vault" 403) rfl rfl rfl⟩

/-- C10 (the code at the failing inputs): after a login that succeeds with a
nil response, or with a response without authentication section, `Create`
dereferences a nil pointer and panics; after a login whose response carries an
empty client token it returns the empty token together with a nil error. -/
theorem Create_unchecked_response :
    (authKubernetesPlugin.Create nilResponseAuthHost legacyOptions).2
      = .panicked "nil pointer dereference" ∧
    (authKubernetesPlugin.Create noAuthSectionAuthHost legacyOptions).2
      = .panicked "nil pointer dereference" ∧
    (authKubernetesPlugin.Create emptyTokenAuthHost legacyOptions).2
      = .returned ("", none) := by
  decide

/-- With a response that carries a client token, `Create` returns that token
and a nil error. -/
theorem Create_returns_token (H : AuthHost) (cfg : vaultAuthOptions α) (role tok : String)
    (jwt : Bytes) (hrole : H.lookupEnv "VAULT_SIDEKICK_ROLE" = some role)
    (hread : H.readFile (getEnv H.lookupEnv "VAULT_K8S_TOKEN_PATH"
      "/var/run/secrets/kubernetes.io/serviceaccount/token") = .ok jwt)
    (hwrite : H.write (getEnv H.lookupEnv "VAULT_K8S_LOGIN_PATH" "kubernetes/login") role jwt
      = (some { Auth := some { ClientToken := tok } }, none)) :
    (authKubernetesPlugin.Create H cfg).2 = .returned (tok, none) := by
  unfold authKubernetesPlugin.Create
  simp only [hrole, hread, hwrite]

end VaultSidekick
